import Mathlib

/-!
Shallow embedding of the RPC service runtime of a bitcoin-v0.12.1-derived node:
`httpserver.cpp` (bounded work queue, ACL check, path-handler registry, the
generic request callback, bind-address selection, `HTTPRequest` reply lifecycle)
and `scheduler.cpp` (the delayed-task scheduler `CScheduler`).

C++ strings are modelled as `List Char`; machine integers as `Nat` (no
arithmetic here ever overflows or goes below zero in the source paths
modelled).  Stateful objects are modelled by explicit state passing; C++
`assert` failures are modelled as `Option.none` results.
-/

namespace HTTPServer

/-- Characters of a C++ `std::string`. -/
abbrev Str := List Char

/-! ### HTTP status codes (rpcprotocol.h) -/

def HTTP_FORBIDDEN : Nat := 403
def HTTP_NOTFOUND : Nat := 404
def HTTP_BADMETHOD : Nat := 405
def HTTP_INTERNAL : Nat := 500

/-! ### Bounded work queue (`WorkQueue<WorkItem>` in httpserver.cpp) -/

/-- State of `WorkQueue<WorkItem>`: the deque of pending items, the `running`
flag, the configured `maxDepth` and the RAII-tracked worker count. -/
structure WorkQueue (α : Type) where
  queue : List α
  running : Bool
  maxDepth : Nat
  numThreads : Nat
deriving Repr, DecidableEq

/-- The `WorkQueue(size_t maxDepth)` constructor: empty deque, `running = true`,
`numThreads = 0`. -/
def WorkQueue.new (maxDepth : Nat) : WorkQueue α :=
  { queue := [], running := true, maxDepth := maxDepth, numThreads := 0 }

/-- `WorkQueue::Enqueue`: under the lock, if `queue.size() >= maxDepth` return
`false`; else push the item at the back, signal a waiter, and return `true`.
(The source performs no check of `running` here.) -/
def WorkQueue.Enqueue (wq : WorkQueue α) (item : α) : WorkQueue α × Bool :=
  if wq.queue.length ≥ wq.maxDepth then
    (wq, false)
  else
    ({ wq with queue := wq.queue ++ [item] }, true)

/-- `WorkQueue::Depth`: current length of the deque. -/
def WorkQueue.Depth (wq : WorkQueue α) : Nat :=
  wq.queue.length

/-- `WorkQueue::Interrupt`: set `running = false` and wake all waiters. -/
def WorkQueue.Interrupt (wq : WorkQueue α) : WorkQueue α :=
  { wq with running := false }

/-- One iteration of the loop body of `WorkQueue::Run`: if `running` is false
the loop breaks without taking work (`none`); otherwise, once the deque is
non-empty, the front item is popped and returned for execution.  An empty deque
means the thread keeps waiting on the condition variable (`none`, state
unchanged). -/
def WorkQueue.RunStep (wq : WorkQueue α) : WorkQueue α × Option α :=
  if !wq.running then
    (wq, none)
  else
    match wq.queue with
    | [] => (wq, none)
    | i :: rest => ({ wq with queue := rest }, some i)

/-! ### `HTTPRequest` reply lifecycle -/

/-- A reply event posted to the event-loop thread: status code and the bytes
appended to the output buffer. -/
structure Reply where
  nStatus : Nat
  body : String
deriving Repr, DecidableEq

/-- The per-request state the reply discipline depends on: the
`replySent` flag (`HTTPRequest::HTTPRequest` initializes it to `false`). -/
structure HTTPRequest where
  replySent : Bool
deriving Repr, DecidableEq

/-- `HTTPRequest::WriteReply(nStatus, strReply)`: asserts `!replySent`
(modelled: `none` = assertion failure); otherwise appends the body to the
output buffer, posts the send event to the event loop (the returned `Reply`),
and marks the request reply-sent. -/
def HTTPRequest.WriteReply (r : HTTPRequest) (nStatus : Nat) (strReply : String) :
    Option (HTTPRequest × Reply) :=
  if r.replySent then
    none
  else
    some ({ r with replySent := true }, { nStatus := nStatus, body := strReply })

/-- `HTTPRequest::~HTTPRequest`: if no reply was sent, synthesize
`WriteReply(HTTP_INTERNAL, "Unhandled request")`.  Returns the replies the
destructor emits. -/
def HTTPRequest.destructorReplies (r : HTTPRequest) : List Reply :=
  if !r.replySent then
    match r.WriteReply HTTP_INTERNAL "Unhandled request" with
    | some (_, rep) => [rep]
    | none => []
  else
    []

/-- A request lifetime: a sequence of attempted `WriteReply` calls followed by
destruction.  Result: the list of replies emitted over the lifetime, or `none`
if some `WriteReply` violated its `!replySent` assertion (process abort). -/
def HTTPRequest.lifetime (r : HTTPRequest) : List (Nat × String) → Option (List Reply)
  | [] => some r.destructorReplies
  | (s, b) :: ws =>
    match r.WriteReply s b with
    | none => none
    | some (r', rep) => (r'.lifetime ws).map (fun rest => rep :: rest)

/-! ### Path-handler registry (`HTTPPathHandler`, `pathHandlers`) -/

/-- `HTTPPathHandler`: the registered path (the C++ field is the reserved word
for a leading path segment, renamed `pre` here), the exact-match flag and the
handler closure (opaque id). -/
structure HTTPPathHandler where
  pre : Str
  exactMatch : Bool
  handler : Nat
deriving Repr, DecidableEq

/-- The match test of the lookup loop in `http_request_cb`:
`exactMatch` records require `strURI == pre`; otherwise
`strURI.substr(0, pre.size()) == pre`. -/
def handlerMatch (h : HTTPPathHandler) (strURI : Str) : Bool :=
  if h.exactMatch then
    decide (strURI = h.pre)
  else
    decide (strURI.take h.pre.length = h.pre)

/-- The lookup loop of `http_request_cb`: scan `pathHandlers` from the front;
on the first record that matches, return it with
`path = strURI.substr(pre.size())`. -/
def findHandler : List HTTPPathHandler → Str → Option (HTTPPathHandler × Str)
  | [], _ => none
  | h :: rest, strURI =>
    if handlerMatch h strURI then
      some (h, strURI.drop h.pre.length)
    else
      findHandler rest strURI

/-- Spec-side: `beginsWith uri p` holds iff `p` is a leading segment of
`uri` (the spec's "uri begins with" wording). -/
def beginsWith : Str → Str → Bool
  | _, [] => true
  | [], _ :: _ => false
  | c :: cs, d :: ds => decide (c = d) && beginsWith cs ds

/-- Spec-side wording of the match condition: an exact record matches iff the
URI equals the registered path; a non-exact record matches iff the URI begins
with it.  Compared against the source's `handlerMatch` below. -/
def matchesSpec (h : HTTPPathHandler) (strURI : Str) : Bool :=
  if h.exactMatch then decide (strURI = h.pre) else beginsWith strURI h.pre

/-- `RegisterHTTPHandler`: `pathHandlers.push_back(...)`. -/
def RegisterHTTPHandler (hs : List HTTPPathHandler) (p : Str) (exactMatch : Bool)
    (handler : Nat) : List HTTPPathHandler :=
  hs ++ [{ pre := p, exactMatch := exactMatch, handler := handler }]

/-- `UnregisterHTTPHandler`: erase the first record whose path and exact flag
both match; silent no-op when none does. -/
def UnregisterHTTPHandler : List HTTPPathHandler → Str → Bool → List HTTPPathHandler
  | [], _, _ => []
  | h :: rest, p, e =>
    if h.pre = p ∧ h.exactMatch = e then
      rest
    else
      h :: UnregisterHTTPHandler rest p e

/-! ### ACL (`ClientAllowed`) -/

/-- A peer network address (`CNetAddr`).  The class itself lives outside the
sources at hand; only its `IsValid()` observation and an opaque payload are
needed. -/
structure CNetAddr where
  valid : Bool
  addr : Nat
deriving Repr, DecidableEq

/-- `CNetAddr::IsValid()`. -/
def CNetAddr.IsValid (a : CNetAddr) : Bool := a.valid

/-- A `CSubNet` entry of `rpc_allow_subnets`, opaque here. -/
abbrev CSubNet := Nat

/-- `ClientAllowed(netaddr)`: return `false` for an invalid address; otherwise
scan `rpc_allow_subnets` and return `true` on the first `subnet.Match(netaddr)`.
`CSubNet::Match` is implemented outside the sources at hand and is taken as the
parameter `subnetMatch`. -/
def ClientAllowed (subnetMatch : CSubNet → CNetAddr → Bool)
    (rpc_allow_subnets : List CSubNet) (netaddr : CNetAddr) : Bool :=
  if !netaddr.IsValid then
    false
  else
    rpc_allow_subnets.any (fun subnet => subnetMatch subnet netaddr)

/-! ### Generic request callback (`http_request_cb`) -/

/-- `HTTPRequest::RequestMethod`. -/
inductive RequestMethod where
  | GET
  | POST
  | HEAD
  | PUT
  | UNKNOWN
deriving Repr, DecidableEq

/-- `HTTPWorkItem`: the dispatched path suffix and the matched handler closure
(the owned request is implicit). -/
structure HTTPWorkItem where
  path : Str
  func : Nat
deriving Repr, DecidableEq

/-- Outcome of `http_request_cb` for one request: either a reply written on the
spot, or a work item dispatched to the worker pool. -/
inductive CbResult where
  | reply (nStatus : Nat) (body : String)
  | dispatched (item : HTTPWorkItem)
deriving Repr, DecidableEq

/-- The module state `http_request_cb` reads: `rpc_allow_subnets`,
`pathHandlers` and `workQueue`. -/
structure FrontEnd where
  rpc_allow_subnets : List CSubNet
  pathHandlers : List HTTPPathHandler
  workQueue : WorkQueue HTTPWorkItem
deriving Repr, DecidableEq

/-- `http_request_cb`: ACL gate (403), then unknown-method gate (405), then
handler lookup (404 on miss), then enqueue of the work item (500 "Work queue
depth exceeded" when `Enqueue` refuses). -/
def http_request_cb (subnetMatch : CSubNet → CNetAddr → Bool) (st : FrontEnd)
    (peer : CNetAddr) (method : RequestMethod) (strURI : Str) :
    CbResult × WorkQueue HTTPWorkItem :=
  if !ClientAllowed subnetMatch st.rpc_allow_subnets peer then
    (.reply HTTP_FORBIDDEN "", st.workQueue)
  else if method = RequestMethod.UNKNOWN then
    (.reply HTTP_BADMETHOD "", st.workQueue)
  else
    match findHandler st.pathHandlers strURI with
    | some (h, path) =>
      let item : HTTPWorkItem := { path := path, func := h.handler }
      let res := st.workQueue.Enqueue item
      if res.2 then
        (.dispatched item, res.1)
      else
        (.reply HTTP_INTERNAL "Work queue depth exceeded", res.1)
    | none => (.reply HTTP_NOTFOUND "", st.workQueue)

/-! ### Bind-address selection (`HTTPBindAddresses`) -/

/-- The configuration `HTTPBindAddresses` reads: presence of `-rpcallowip`,
the `-rpcbind` entries when that option is present (each pre-parsed into host
and optional port), and the resolved default RPC port. -/
structure HTTPConfig where
  rpcallowip : Bool
  rpcbind : Option (List (String × Option Nat))
  rpcport : Nat
deriving Repr, DecidableEq

/-- Modelled from the spec: `SplitHostPort` (netbase, outside the sources at
hand) parses one `host[:port]` entry, the port defaulting to the given default
when the entry carries none. -/
def splitHostPort (defaultPort : Nat) (entry : String × Option Nat) : String × Nat :=
  (entry.1, entry.2.getD defaultPort)

/-- Result of `HTTPBindAddresses`: the endpoint list it attempts, the sockets
actually bound, whether the rpcbind-ignored warning was logged, and the boolean
the function returns (`!boundSockets.empty()`). -/
structure BindResult where
  endpoints : List (String × Nat)
  boundSockets : List (String × Nat)
  warnedRpcbindIgnored : Bool
  ok : Bool
deriving Repr, DecidableEq

/-- `HTTPBindAddresses(http)`: choose endpoints (loopback only without
`-rpcallowip`, warning if `-rpcbind` was set; the parsed `-rpcbind` entries
when both options are present; the wildcard addresses otherwise), attempt to
bind each (`evhttp_bind_socket_with_handle` is external, taken as the
predicate `bindOk`), and succeed iff at least one bind succeeded. -/
def HTTPBindAddresses (cfg : HTTPConfig) (bindOk : String × Nat → Bool) : BindResult :=
  let defaultPort := cfg.rpcport
  let endpoints :=
    if !cfg.rpcallowip then
      [("::1", defaultPort), ("127.0.0.1", defaultPort)]
    else
      match cfg.rpcbind with
      | some vbind => vbind.map (splitHostPort defaultPort)
      | none => [("::", defaultPort), ("0.0.0.0", defaultPort)]
  let bound := endpoints.filter bindOk
  { endpoints := endpoints
    boundSockets := bound
    warnedRpcbindIgnored := !cfg.rpcallowip && cfg.rpcbind.isSome
    ok := !bound.isEmpty }

end HTTPServer

namespace Sched

/-! ### Delayed-task scheduler (`CScheduler` in scheduler.cpp) -/

/-- `CScheduler` state: `taskQueue` is the `std::multimap` from absolute fire
time to callable (kept sorted by key, callables as opaque ids), plus the two
stop flags.  `nThreadsServicingQueue` plays no role in the claims settled
here. -/
structure CScheduler where
  taskQueue : List (Nat × Nat)
  stopRequested : Bool
  stopWhenEmpty : Bool
deriving Repr, DecidableEq

/-- `CScheduler::shouldStop()`. -/
def CScheduler.shouldStop (s : CScheduler) : Bool :=
  s.stopRequested || (s.stopWhenEmpty && s.taskQueue.isEmpty)

/-- `std::multimap::insert`: the new pair goes before the first entry with a
strictly larger key, after all entries with an equal key. -/
def insertTask : List (Nat × Nat) → Nat × Nat → List (Nat × Nat)
  | [], p => [p]
  | q :: rest, p => if p.1 < q.1 then p :: q :: rest else q :: insertTask rest p

/-- `CScheduler::schedule(f, t)`: insert `(t, f)` and notify one waiter. -/
def CScheduler.schedule (s : CScheduler) (f : Nat) (t : Nat) : CScheduler :=
  { s with taskQueue := insertTask s.taskQueue (t, f) }

/-- One iteration of the `CScheduler::serviceQueue` loop at wall-clock `now`:
exit if `shouldStop()`; keep waiting if the queue is empty; keep waiting while
the timed wait on the front key has not yet timed out (`now < t`); otherwise
take the front `(t, f)`, erase it, and run `f` outside the lock. -/
def CScheduler.serviceStep (s : CScheduler) (now : Nat) : CScheduler × Option Nat :=
  if s.shouldStop then
    (s, none)
  else
    match s.taskQueue with
    | [] => (s, none)
    | (t, f) :: rest =>
      if now < t then (s, none) else ({ s with taskQueue := rest }, some f)

/-- External events driving the scheduler: a service-loop iteration observed at
wall time `now`, or a `schedule(f, t)` call from some other thread. -/
inductive SchedEvent where
  | step (now : Nat)
  | post (t : Nat) (f : Nat)
deriving Repr, DecidableEq

/-- Run the scheduler over a sequence of events; result: the ids of the tasks
executed, in execution order. -/
def CScheduler.runEvents (s : CScheduler) : List SchedEvent → List Nat
  | [] => []
  | .post t f :: evs => (s.schedule f t).runEvents evs
  | .step now :: evs =>
    match s.serviceStep now with
    | (s', none) => s'.runEvents evs
    | (s', some f) => f :: s'.runEvents evs

/-- The task ids posted by a sequence of events. -/
def postedTasks (evs : List SchedEvent) : List Nat :=
  evs.filterMap (fun ev => match ev with
    | .post _ f => some f
    | .step _ => none)

/-- `CScheduler::scheduleFromNow(f, deltaSeconds)` called at wall time `now`:
`schedule(f, now + deltaSeconds)`. -/
def CScheduler.scheduleFromNow (s : CScheduler) (now : Nat) (f : Nat)
    (deltaSeconds : Nat) : CScheduler :=
  s.schedule f (now + deltaSeconds)

/-- `Repeat(s, f, deltaSeconds)` run at wall time `start`, with `f` modelled by
`runF : start ↦ finish` (so `runF start` is the wall time at which `f`
returns): first run `f` to completion, then `scheduleFromNow` the wrapper
itself `deltaSeconds` after that completion time.  Returns the new scheduler
state and the completion time of `f`. -/
def RepeatRun (s : CScheduler) (wrapper : Nat) (runF : Nat → Nat)
    (deltaSeconds : Nat) (start : Nat) : CScheduler × Nat :=
  let finish := runF start
  ((s.scheduleFromNow finish wrapper deltaSeconds), finish)

/-- `CScheduler::scheduleEvery(f, deltaSeconds)` called at wall time `now`:
`scheduleFromNow` of the `Repeat` wrapper. -/
def CScheduler.scheduleEvery (s : CScheduler) (now : Nat) (wrapper : Nat)
    (deltaSeconds : Nat) : CScheduler :=
  s.scheduleFromNow now wrapper deltaSeconds

/-- Start times of successive wrapper invocations of `scheduleEvery` called at
`t0`, when `f` takes `tau` time units and every scheduled wrapper fires exactly
at its deadline: invocation `k + 1` fires at the reschedule deadline computed
by `RepeatRun` for invocation `k`. -/
def repeatStart (t0 tau delta : Nat) : Nat → Nat
  | 0 => t0 + delta
  | k + 1 =>
    match (RepeatRun { taskQueue := [], stopRequested := false, stopWhenEmpty := false }
        0 (fun st => st + tau) delta (repeatStart t0 tau delta k)).1.taskQueue with
    | (t, _) :: _ => t
    | [] => 0

end Sched

/-!
## Theorems

Each claim of the specification is settled by exactly one theorem below;
supporting lemmas precede the claim theorems that use them.
-/

namespace HTTPServer

/-- A request whose reply was already sent emits nothing more: any further
lifetime is the empty one. -/
theorem lifetime_of_replySent (r : HTTPRequest) (hr : r.replySent = true) :
    ∀ ws l, r.lifetime ws = some l → l = [] := by
  intro ws l h
  cases ws with
  | nil =>
    simp only [HTTPRequest.lifetime, HTTPRequest.destructorReplies, hr,
      Bool.not_true, Bool.false_eq_true, if_false, Option.some.injEq] at h
    exact h.symm
  | cons w ws =>
    obtain ⟨s, b⟩ := w
    simp [HTTPRequest.lifetime, HTTPRequest.WriteReply, hr] at h

/-- C1: exactly one reply is emitted over a request's lifetime.  A fresh
request (replySent = false) on any non-aborting lifetime emits exactly one
reply; if it is destroyed with no reply written, the destructor synthesizes
`500 "Unhandled request"`; `WriteReply` marks the request reply-sent, and a
second `WriteReply` on a reply-sent request violates the `!replySent`
assertion (modelled as `none`). -/
theorem c1_exactly_one_reply (ws : List (Nat × String)) (replies : List Reply)
    (hlife : HTTPRequest.lifetime { replySent := false } ws = some replies) :
    replies.length = 1 ∧
    HTTPRequest.destructorReplies { replySent := false } =
      [{ nStatus := HTTP_INTERNAL, body := "Unhandled request" }] ∧
    (∀ r : HTTPRequest, r.replySent = true → ∀ s b, r.WriteReply s b = none) ∧
    (∀ s b r' rep, HTTPRequest.WriteReply { replySent := false } s b = some (r', rep) →
      r'.replySent = true) := by
  refine ⟨?_, by decide, ?_, ?_⟩
  · cases ws with
    | nil =>
      simp only [HTTPRequest.lifetime, Option.some.injEq] at hlife
      rw [← hlife]
      decide
    | cons w ws =>
      obtain ⟨s, b⟩ := w
      simp only [HTTPRequest.lifetime, HTTPRequest.WriteReply, Bool.false_eq_true,
        if_false, Option.map_eq_some'] at hlife
      obtain ⟨rest, hrest, hcons⟩ := hlife
      have : rest = [] := lifetime_of_replySent { replySent := true } rfl ws rest hrest
      rw [← hcons, this]
      rfl
  · intro r hr s b
    simp [HTTPRequest.WriteReply, hr]
  · intro s b r' rep h
    simp only [HTTPRequest.WriteReply, Bool.false_eq_true, if_false,
      Option.some.injEq, Prod.mk.injEq] at h
    rw [← h.1]

/-- Witness for C1 at a concrete lifetime with one successful `WriteReply`. -/
theorem c1_exactly_one_reply_witness :
    ([{ nStatus := 200, body := "OK" }] : List Reply).length = 1 ∧
    HTTPRequest.destructorReplies { replySent := false } =
      [{ nStatus := HTTP_INTERNAL, body := "Unhandled request" }] ∧
    (∀ r : HTTPRequest, r.replySent = true → ∀ s b, r.WriteReply s b = none) ∧
    (∀ s b r' rep, HTTPRequest.WriteReply { replySent := false } s b = some (r', rep) →
      r'.replySent = true) :=
  c1_exactly_one_reply [(200, "OK")] [{ nStatus := 200, body := "OK" }] rfl

/-- C2 counterexample: `WorkQueue::Enqueue` never inspects `running`, so a
work item offered after `Interrupt()` (running = false) with the queue below
capacity is accepted: `Enqueue` returns `true`, not `false`. -/
theorem c2_counterexample :
    ((WorkQueue.new 16 : WorkQueue HTTPWorkItem).Interrupt.running = false) ∧
    (((WorkQueue.new 16 : WorkQueue HTTPWorkItem).Interrupt.Enqueue
        { path := [], func := 0 }).2 = true) := by
  decide

/-- C2 amended: `Enqueue` appends and returns `true` iff `depth < capacity`,
regardless of `running`; interrupting first changes neither the acceptance
decision nor the resulting deque. -/
theorem c2_amended_enqueue_ignores_running (wq : WorkQueue α) (item : α) :
    (wq.Depth < wq.maxDepth →
      wq.Enqueue item = ({ wq with queue := wq.queue ++ [item] }, true) ∧
      wq.Interrupt.Enqueue item =
        ({ wq with running := false, queue := wq.queue ++ [item] }, true)) ∧
    (wq.maxDepth ≤ wq.Depth →
      wq.Enqueue item = (wq, false) ∧
      wq.Interrupt.Enqueue item = (wq.Interrupt, false)) := by
  constructor
  · intro h
    have hg : ¬ wq.queue.length ≥ wq.maxDepth := Nat.not_le_of_lt h
    constructor <;> simp [WorkQueue.Enqueue, WorkQueue.Interrupt, hg]
  · intro h
    have hg : wq.queue.length ≥ wq.maxDepth := h
    constructor <;> simp [WorkQueue.Enqueue, WorkQueue.Interrupt, hg]

/-- Witness for C2's amended theorem at a concrete queue below capacity. -/
theorem c2_amended_witness :
    (WorkQueue.new 2 : WorkQueue Nat).Enqueue 0 =
      ({ (WorkQueue.new 2 : WorkQueue Nat) with
          queue := (WorkQueue.new 2 : WorkQueue Nat).queue ++ [0] }, true) ∧
    (WorkQueue.new 2 : WorkQueue Nat).Interrupt.Enqueue 0 =
      ({ (WorkQueue.new 2 : WorkQueue Nat) with
          running := false,
          queue := (WorkQueue.new 2 : WorkQueue Nat).queue ++ [0] }, true) :=
  (c2_amended_enqueue_ignores_running (WorkQueue.new 2) 0).1 (by decide)

/-- C5: the depth invariant `0 ≤ depth ≤ capacity` is preserved by `Enqueue`,
by a `Run` dequeue step and by `Interrupt`; an `Enqueue` at
`depth = capacity - 1` (capacity ≥ 1) succeeds; an `Enqueue` at
`depth = capacity` returns `false` and leaves the queue unmodified. -/
theorem c5_depth_invariant (wq : WorkQueue α) (item : α) :
    (0 ≤ wq.Depth ∧
      (wq.Depth ≤ wq.maxDepth →
        (wq.Enqueue item).1.Depth ≤ wq.maxDepth ∧
        wq.RunStep.1.Depth ≤ wq.maxDepth ∧
        wq.Interrupt.Depth ≤ wq.maxDepth)) ∧
    (1 ≤ wq.maxDepth → wq.Depth = wq.maxDepth - 1 → (wq.Enqueue item).2 = true) ∧
    (wq.Depth = wq.maxDepth → wq.Enqueue item = (wq, false)) := by
  refine ⟨⟨Nat.zero_le _, fun h => ⟨?_, ?_, ?_⟩⟩, fun h1 h2 => ?_, fun h => ?_⟩
  · by_cases hg : wq.queue.length ≥ wq.maxDepth
    · simp [WorkQueue.Enqueue, WorkQueue.Depth, hg]
      exact h
    · simp [WorkQueue.Enqueue, WorkQueue.Depth, hg]
      omega
  · unfold WorkQueue.RunStep
    by_cases hr : !wq.running
    · simpa [hr] using h
    · simp only [hr, Bool.false_eq_true, if_false]
      cases hq : wq.queue with
      | nil => simpa using h
      | cons i rest =>
        simp only [WorkQueue.Depth] at h ⊢
        rw [hq] at h
        simp at h ⊢
        omega
  · simpa [WorkQueue.Interrupt, WorkQueue.Depth] using h
  · have hg : ¬ wq.queue.length ≥ wq.maxDepth := by
      simp only [WorkQueue.Depth] at h2
      omega
    simp [WorkQueue.Enqueue, hg]
  · have hg : wq.queue.length ≥ wq.maxDepth := by
      simp only [WorkQueue.Depth] at h
      omega
    simp [WorkQueue.Enqueue, hg]

/-- Witness for C5 at a concrete queue of capacity 2 holding one item. -/
theorem c5_depth_invariant_witness :
    (0 ≤ (WorkQueue.mk [7] true 2 0 : WorkQueue Nat).Depth ∧
      ((WorkQueue.mk [7] true 2 0 : WorkQueue Nat).Depth ≤ 2 →
        ((WorkQueue.mk [7] true 2 0 : WorkQueue Nat).Enqueue 8).1.Depth ≤ 2 ∧
        (WorkQueue.mk [7] true 2 0 : WorkQueue Nat).RunStep.1.Depth ≤ 2 ∧
        (WorkQueue.mk [7] true 2 0 : WorkQueue Nat).Interrupt.Depth ≤ 2)) ∧
    (1 ≤ 2 → (WorkQueue.mk [7] true 2 0 : WorkQueue Nat).Depth = 2 - 1 →
      ((WorkQueue.mk [7] true 2 0 : WorkQueue Nat).Enqueue 8).2 = true) ∧
    ((WorkQueue.mk [7] true 2 0 : WorkQueue Nat).Depth = 2 →
      (WorkQueue.mk [7] true 2 0 : WorkQueue Nat).Enqueue 8 =
        (WorkQueue.mk [7] true 2 0, false)) :=
  c5_depth_invariant (WorkQueue.mk [7] true 2 0) 8

end HTTPServer

namespace HTTPServer

/-- C3: the generic request callback applies its gates in order and
short-circuits.  A disallowed peer gets `403` with no handler lookup (the
outcome is the same for every handler list) and no queue change; an allowed
peer with a method that is none of GET/POST/HEAD/PUT gets `405`; a miss in the
handler registry gets `404`; a hit enqueues the work item, and a refused
enqueue yields `500 "Work queue depth exceeded"` with the queue unchanged. -/
theorem c3_gate_order (subnetMatch : CSubNet → CNetAddr → Bool) (st : FrontEnd)
    (peer : CNetAddr) (method : RequestMethod) (strURI : Str) :
    (ClientAllowed subnetMatch st.rpc_allow_subnets peer = false →
      ∀ hs : List HTTPPathHandler,
        http_request_cb subnetMatch { st with pathHandlers := hs } peer method strURI =
          (.reply HTTP_FORBIDDEN "", st.workQueue)) ∧
    (ClientAllowed subnetMatch st.rpc_allow_subnets peer = true →
      (method ≠ .GET ∧ method ≠ .POST ∧ method ≠ .HEAD ∧ method ≠ .PUT) →
      http_request_cb subnetMatch st peer method strURI =
        (.reply HTTP_BADMETHOD "", st.workQueue)) ∧
    (ClientAllowed subnetMatch st.rpc_allow_subnets peer = true →
      method ≠ .UNKNOWN →
      findHandler st.pathHandlers strURI = none →
      http_request_cb subnetMatch st peer method strURI =
        (.reply HTTP_NOTFOUND "", st.workQueue)) ∧
    (ClientAllowed subnetMatch st.rpc_allow_subnets peer = true →
      method ≠ .UNKNOWN →
      ∀ h path, findHandler st.pathHandlers strURI = some (h, path) →
        (st.workQueue.Depth < st.workQueue.maxDepth →
          http_request_cb subnetMatch st peer method strURI =
            (.dispatched { path := path, func := h.handler },
             { st.workQueue with
                queue := st.workQueue.queue ++ [{ path := path, func := h.handler }] })) ∧
        (st.workQueue.maxDepth ≤ st.workQueue.Depth →
          http_request_cb subnetMatch st peer method strURI =
            (.reply HTTP_INTERNAL "Work queue depth exceeded", st.workQueue))) := by
  refine ⟨fun hacl hs => ?_, fun hacl hm => ?_, fun hacl hm hfind => ?_,
    fun hacl hm h path hfind => ⟨fun hdep => ?_, fun hdep => ?_⟩⟩
  · simp [http_request_cb, hacl]
  · have hu : method = RequestMethod.UNKNOWN := by
      obtain ⟨h1, h2, h3, h4⟩ := hm
      cases method <;> simp_all
    simp [http_request_cb, hacl, hu]
  · simp [http_request_cb, hacl, hm, hfind]
  · have hg : ¬ st.workQueue.queue.length ≥ st.workQueue.maxDepth :=
      Nat.not_le_of_lt hdep
    simp [http_request_cb, hacl, hm, hfind, WorkQueue.Enqueue, hg]
  · have hg : st.workQueue.queue.length ≥ st.workQueue.maxDepth := hdep
    simp [http_request_cb, hacl, hm, hfind, WorkQueue.Enqueue, hg]

/-- Witness for C3: a disallowed peer receives `403` with the queue intact. -/
theorem c3_gate_order_witness :
    http_request_cb (fun _ _ => false)
      { rpc_allow_subnets := [], pathHandlers := [], workQueue := WorkQueue.new 16 }
      { valid := true, addr := 0 } .GET [] =
      (.reply HTTP_FORBIDDEN "", WorkQueue.new 16) :=
  (c3_gate_order (fun _ _ => false)
      { rpc_allow_subnets := [], pathHandlers := [], workQueue := WorkQueue.new 16 }
      { valid := true, addr := 0 } .GET []).1 (by decide) []

end HTTPServer

namespace Sched

/-- A `serviceQueue` iteration that runs no task leaves the scheduler state
unchanged. -/
theorem serviceStep_none (s : CScheduler) (now : Nat) (s' : CScheduler)
    (h : s.serviceStep now = (s', none)) : s' = s := by
  unfold CScheduler.serviceStep at h
  by_cases hs : s.shouldStop
  · simp [hs] at h
    exact h.symm
  · simp only [hs, Bool.false_eq_true, if_false] at h
    cases hq : s.taskQueue with
    | nil =>
      rw [hq] at h
      simp at h
      exact h.symm
    | cons p rest =>
      obtain ⟨t, f⟩ := p
      rw [hq] at h
      by_cases hlt : now < t
      · simp [hlt] at h
        exact h.symm
      · simp [hlt] at h

/-- A `serviceQueue` iteration that runs `f` at wall time `now` found `(t, f)`
at the front of the queue with `t ≤ now` (the timed wait on the front key had
timed out) and erased it before running it. -/
theorem serviceStep_some (s : CScheduler) (now : Nat) (s' : CScheduler) (f : Nat)
    (h : s.serviceStep now = (s', some f)) :
    ∃ t rest, s.taskQueue = (t, f) :: rest ∧ t ≤ now ∧ s'.taskQueue = rest := by
  unfold CScheduler.serviceStep at h
  by_cases hs : s.shouldStop
  · simp [hs] at h
  · simp only [hs, Bool.false_eq_true, if_false] at h
    cases hq : s.taskQueue with
    | nil =>
      rw [hq] at h
      simp at h
    | cons p rest =>
      obtain ⟨t, g⟩ := p
      rw [hq] at h
      by_cases hlt : now < t
      · simp [hlt] at h
      · simp only [hlt, if_false, Prod.mk.injEq, Option.some.injEq] at h
        obtain ⟨hstate, hf⟩ := h
        subst hf
        exact ⟨t, rest, rfl, Nat.le_of_not_lt hlt, by rw [← hstate]⟩

/-- `std::multimap` insertion is a permutation of consing the new pair. -/
theorem insertTask_perm (q : List (Nat × Nat)) (p : Nat × Nat) :
    (insertTask q p).Perm (p :: q) := by
  induction q with
  | nil => simp [insertTask]
  | cons a rest ih =>
    unfold insertTask
    by_cases hlt : p.1 < a.1
    · simp [hlt]
    · simp only [hlt, if_false]
      exact (ih.cons a).trans (List.Perm.swap p a rest)

/-- Every task id is executed at most as often as it occurs among the initial
queue and the posted tasks. -/
theorem runEvents_count_le (f : Nat) :
    ∀ (evs : List SchedEvent) (s : CScheduler),
      (s.runEvents evs).count f ≤
        (s.taskQueue.map Prod.snd).count f + (postedTasks evs).count f := by
  intro evs
  induction evs with
  | nil =>
    intro s
    simp [CScheduler.runEvents, postedTasks]
  | cons ev evs ih =>
    intro s
    cases ev with
    | post t g =>
      have hperm : ((s.schedule g t).taskQueue.map Prod.snd).Perm
          (g :: s.taskQueue.map Prod.snd) := by
        have := (insertTask_perm s.taskQueue (t, g)).map Prod.snd
        simpa [CScheduler.schedule] using this
      have hcount := hperm.count_eq f
      have hpost : postedTasks (SchedEvent.post t g :: evs) = g :: postedTasks evs := by
        simp [postedTasks]
      have hrun : s.runEvents (SchedEvent.post t g :: evs) =
          (s.schedule g t).runEvents evs := rfl
      rw [hrun, hpost]
      have := ih (s.schedule g t)
      rw [hcount] at this
      simp only [List.count_cons] at this ⊢
      omega
    | step now =>
      rcases hstep : s.serviceStep now with ⟨s', r⟩
      cases r with
      | none =>
        have hseq : s' = s := serviceStep_none s now s' hstep
        have hrun : s.runEvents (SchedEvent.step now :: evs) = s'.runEvents evs := by
          simp [CScheduler.runEvents, hstep]
        rw [hrun, hseq]
        have := ih s
        have hpost : postedTasks (SchedEvent.step now :: evs) = postedTasks evs := by
          simp [postedTasks]
        rw [hpost]
        exact this
      | some g =>
        obtain ⟨t, rest, hqueue, _, hrest⟩ := serviceStep_some s now s' g hstep
        have hrun : s.runEvents (SchedEvent.step now :: evs) =
            g :: s'.runEvents evs := by
          simp [CScheduler.runEvents, hstep]
        have hpost : postedTasks (SchedEvent.step now :: evs) = postedTasks evs := by
          simp [postedTasks]
        rw [hrun, hpost]
        have hih := ih s'
        rw [hrest] at hih
        rw [hqueue]
        simp only [List.map_cons, List.count_cons] at hih ⊢
        omega

/-- C4: for every task `(t, f)`, `f` is never run at a wall-clock time earlier
than `t` — a service iteration that runs `f` at time `now` found `(t, f)` at
the front with `t ≤ now` and erased it first — and each inserted task is
executed at most once: over any event sequence, a task id occurring once among
the initial queue and the `schedule` calls is executed at most once. -/
theorem c4_deadline_and_at_most_once (s : CScheduler) :
    (∀ now s' f, s.serviceStep now = (s', some f) →
      ∃ t rest, s.taskQueue = (t, f) :: rest ∧ t ≤ now ∧ s'.taskQueue = rest) ∧
    (∀ evs f, (s.taskQueue.map Prod.snd).count f + (postedTasks evs).count f ≤ 1 →
      (s.runEvents evs).count f ≤ 1) := by
  constructor
  · exact fun now s' f h => serviceStep_some s now s' f h
  · exact fun evs f h => le_trans (runEvents_count_le f evs s) h

/-- Witness for C4: a queue holding one task with deadline 5, stepped at wall
time 6. -/
theorem c4_deadline_witness :
    ∃ t rest,
      (CScheduler.mk [(5, 7)] false false).taskQueue = (t, 7) :: rest ∧
      t ≤ 6 ∧ (CScheduler.mk [] false false).taskQueue = rest :=
  (c4_deadline_and_at_most_once (CScheduler.mk [(5, 7)] false false)).1 6
    (CScheduler.mk [] false false) 7 (by decide)

end Sched

namespace HTTPServer

/-- The spec's "begins with" is exactly a leading-segment decomposition. -/
theorem beginsWith_iff (uri p : Str) :
    beginsWith uri p = true ↔ ∃ s, p ++ s = uri := by
  induction p generalizing uri with
  | nil =>
    cases uri <;> simp [beginsWith]
  | cons d ds ih =>
    cases uri with
    | nil => simp [beginsWith]
    | cons c cs =>
      simp only [beginsWith, Bool.and_eq_true, decide_eq_true_eq, ih,
        List.cons_append, List.cons.injEq]
      constructor
      · rintro ⟨hcd, s, hs⟩
        exact ⟨s, hcd.symm, hs⟩
      · rintro ⟨s, hdc, hs⟩
        exact ⟨hdc.symm, s, hs⟩

/-- The source's take-based comparison agrees with the spec's "begins with". -/
theorem take_eq_iff_beginsWith (uri p : Str) :
    uri.take p.length = p ↔ beginsWith uri p = true := by
  induction p generalizing uri with
  | nil => simp [beginsWith]
  | cons d ds ih =>
    cases uri with
    | nil => simp [beginsWith]
    | cons c cs =>
      simp only [List.length_cons, List.take_succ_cons, List.cons.injEq,
        beginsWith, Bool.and_eq_true, decide_eq_true_eq, ih]

/-- The match test of the lookup loop equals the spec's match condition. -/
theorem handlerMatch_eq_matchesSpec (h : HTTPPathHandler) (strURI : Str) :
    handlerMatch h strURI = matchesSpec h strURI := by
  unfold handlerMatch matchesSpec
  by_cases he : h.exactMatch
  · simp [he]
  · simp only [he, Bool.false_eq_true, if_false]
    rw [Bool.eq_iff_iff]
    simp [take_eq_iff_beginsWith]

/-- A record that passes the match test has the URI's leading segment equal to
its registered path. -/
theorem handlerMatch_take (h : HTTPPathHandler) (strURI : Str)
    (hm : handlerMatch h strURI = true) :
    strURI.take h.pre.length = h.pre := by
  unfold handlerMatch at hm
  by_cases he : h.exactMatch
  · simp only [he, if_true, decide_eq_true_eq] at hm
    rw [hm, List.take_length]
  · simpa [he] using hm

/-- A successful lookup returns a matching record together with the URI's
remainder after the record's path. -/
theorem findHandler_some (hs : List HTTPPathHandler) (strURI : Str)
    (h : HTTPPathHandler) (s : Str) (hf : findHandler hs strURI = some (h, s)) :
    matchesSpec h strURI = true ∧ h.pre ++ s = strURI := by
  induction hs with
  | nil => simp [findHandler] at hf
  | cons g rest ih =>
    unfold findHandler at hf
    by_cases hm : handlerMatch g strURI
    · simp only [hm, if_true, Option.some.injEq, Prod.mk.injEq] at hf
      obtain ⟨hg, hsuf⟩ := hf
      subst hg
      constructor
      · rw [← handlerMatch_eq_matchesSpec]
        exact hm
      · rw [← hsuf]
        nth_rewrite 1 [← handlerMatch_take g strURI hm]
        exact List.take_append_drop _ _
    · simp only [hm, Bool.false_eq_true, if_false] at hf
      exact ih hf

/-- The first matching record in registration order wins. -/
theorem findHandler_first_wins (strURI : Str) (hs₁ : List HTTPPathHandler)
    (h : HTTPPathHandler) (hs₂ : List HTTPPathHandler)
    (hnone : ∀ g ∈ hs₁, matchesSpec g strURI = false)
    (hm : matchesSpec h strURI = true) :
    findHandler (hs₁ ++ h :: hs₂) strURI = some (h, strURI.drop h.pre.length) := by
  induction hs₁ with
  | nil => simp [findHandler, handlerMatch_eq_matchesSpec, hm]
  | cons g rest ih =>
    have hg : matchesSpec g strURI = false := hnone g (by simp)
    simp only [List.cons_append, findHandler, handlerMatch_eq_matchesSpec, hg,
      Bool.false_eq_true, if_false]
    exact ih (fun g' hg' => hnone g' (List.mem_cons_of_mem g hg'))

/-- C6: the lookup loop scans the records in insertion order and returns the
first match — the source's match test agrees record-by-record with the spec's
(exact: URI equals the path; non-exact: URI begins with the path, where
"begins with" means a leading-segment decomposition) — together with the
remainder of the URI after the matched path; a URI matching several registered
records routes to the earliest-registered one. -/
theorem c6_lookup_first_match (hs : List HTTPPathHandler) (strURI : Str) :
    (∀ h : HTTPPathHandler, handlerMatch h strURI = matchesSpec h strURI) ∧
    (∀ p : Str, beginsWith strURI p = true ↔ ∃ s, p ++ s = strURI) ∧
    findHandler [] strURI = none ∧
    (∀ h rest, findHandler (h :: rest) strURI =
      if matchesSpec h strURI then some (h, strURI.drop h.pre.length)
      else findHandler rest strURI) ∧
    (∀ h s, findHandler hs strURI = some (h, s) →
      matchesSpec h strURI = true ∧ h.pre ++ s = strURI) ∧
    (∀ (hs₁ : List HTTPPathHandler) (h : HTTPPathHandler) (hs₂ : List HTTPPathHandler),
      (∀ g ∈ hs₁, matchesSpec g strURI = false) → matchesSpec h strURI = true →
      findHandler (hs₁ ++ h :: hs₂) strURI = some (h, strURI.drop h.pre.length)) := by
  refine ⟨fun h => handlerMatch_eq_matchesSpec h strURI,
    fun p => beginsWith_iff strURI p, rfl, fun h rest => ?_,
    fun h s hf => findHandler_some hs strURI h s hf,
    fun hs₁ h hs₂ hnone hm => findHandler_first_wins strURI hs₁ h hs₂ hnone hm⟩
  rw [findHandler, handlerMatch_eq_matchesSpec]

/-- Witness for C6: with two records matching `/a/b`, lookup routes to the one
registered first and returns the remainder after its path. -/
theorem c6_lookup_first_match_witness :
    findHandler ([] ++ HTTPPathHandler.mk ['/', 'a'] false 1 ::
        [HTTPPathHandler.mk ['/'] false 2]) ['/', 'a', '/', 'b'] =
      some (HTTPPathHandler.mk ['/', 'a'] false 1,
        List.drop (HTTPPathHandler.mk ['/', 'a'] false 1).pre.length
          ['/', 'a', '/', 'b']) :=
  (c6_lookup_first_match
      ([] ++ HTTPPathHandler.mk ['/', 'a'] false 1 :: [HTTPPathHandler.mk ['/'] false 2])
      ['/', 'a', '/', 'b']).2.2.2.2.2
    [] (HTTPPathHandler.mk ['/', 'a'] false 1) [HTTPPathHandler.mk ['/'] false 2]
    (by intro g hg; simp at hg) (by decide)

/-- C7 counterexample: with a record for the same `(path, exact)` key already
registered (handler 1), registering handler 2 and then unregistering removes
the first, older record, so the registry and its lookup results differ from
the prior state. -/
theorem c7_counterexample :
    UnregisterHTTPHandler
        (RegisterHTTPHandler [HTTPPathHandler.mk ['/', 'r'] true 1] ['/', 'r'] true 2)
        ['/', 'r'] true ≠ [HTTPPathHandler.mk ['/', 'r'] true 1] ∧
    findHandler
        (UnregisterHTTPHandler
          (RegisterHTTPHandler [HTTPPathHandler.mk ['/', 'r'] true 1] ['/', 'r'] true 2)
          ['/', 'r'] true) ['/', 'r'] ≠
      findHandler [HTTPPathHandler.mk ['/', 'r'] true 1] ['/', 'r'] := by
  decide

/-- C7 amended: provided no already-registered record carries the same
`(path, exact)` key, `register` followed by `unregister` restores the registry
exactly, and hence every lookup behaves as before. -/
theorem c7_register_unregister_roundtrip (regs : List HTTPPathHandler) (p : Str)
    (e : Bool) (hnd : Nat)
    (hfresh : ∀ h ∈ regs, ¬(h.pre = p ∧ h.exactMatch = e)) :
    UnregisterHTTPHandler (RegisterHTTPHandler regs p e hnd) p e = regs ∧
    ∀ uri, findHandler (UnregisterHTTPHandler (RegisterHTTPHandler regs p e hnd) p e) uri =
      findHandler regs uri := by
  have hmain : UnregisterHTTPHandler (RegisterHTTPHandler regs p e hnd) p e = regs := by
    induction regs with
    | nil => simp [RegisterHTTPHandler, UnregisterHTTPHandler]
    | cons h rest ih =>
      have hh : ¬(h.pre = p ∧ h.exactMatch = e) := hfresh h (by simp)
      have ihr := ih (fun g hg => hfresh g (List.mem_cons_of_mem h hg))
      simp only [RegisterHTTPHandler, List.cons_append, UnregisterHTTPHandler, hh,
        if_false]
      exact congrArg (fun l => h :: l) ihr
  exact ⟨hmain, fun uri => by rw [hmain]⟩

/-- Witness for C7's amended theorem on a registry with one unrelated record. -/
theorem c7_register_unregister_roundtrip_witness :
    UnregisterHTTPHandler
        (RegisterHTTPHandler [HTTPPathHandler.mk ['/', 'x'] false 3] ['/', 'r'] true 2)
        ['/', 'r'] true = [HTTPPathHandler.mk ['/', 'x'] false 3] ∧
    ∀ uri, findHandler
        (UnregisterHTTPHandler
          (RegisterHTTPHandler [HTTPPathHandler.mk ['/', 'x'] false 3] ['/', 'r'] true 2)
          ['/', 'r'] true) uri =
      findHandler [HTTPPathHandler.mk ['/', 'x'] false 3] uri :=
  c7_register_unregister_roundtrip [HTTPPathHandler.mk ['/', 'x'] false 3]
    ['/', 'r'] true 2 (by decide)

end HTTPServer

namespace HTTPServer

/-- C8: bind-address selection.  Without `-rpcallowip` only `::1` and
`127.0.0.1` on the RPC port are attempted and any configured `-rpcbind` is
ignored with the warning logged; with an allow list and explicit `-rpcbind`
entries, each `host[:port]` is attempted with the port defaulting to the RPC
port; otherwise `::` and `0.0.0.0` are attempted.  The bound sockets are
exactly the endpoints whose bind succeeded, and initialization succeeds iff at
least one did. -/
theorem c8_bind_policy (cfg : HTTPConfig) (bindOk : String × Nat → Bool) :
    (cfg.rpcallowip = false →
      (HTTPBindAddresses cfg bindOk).endpoints =
        [("::1", cfg.rpcport), ("127.0.0.1", cfg.rpcport)] ∧
      (HTTPBindAddresses cfg bindOk).warnedRpcbindIgnored = cfg.rpcbind.isSome) ∧
    (∀ vbind, cfg.rpcallowip = true → cfg.rpcbind = some vbind →
      (HTTPBindAddresses cfg bindOk).endpoints =
        vbind.map (fun e => (e.1, e.2.getD cfg.rpcport))) ∧
    (cfg.rpcallowip = true → cfg.rpcbind = none →
      (HTTPBindAddresses cfg bindOk).endpoints =
        [("::", cfg.rpcport), ("0.0.0.0", cfg.rpcport)]) ∧
    ((HTTPBindAddresses cfg bindOk).boundSockets =
      (HTTPBindAddresses cfg bindOk).endpoints.filter bindOk) ∧
    ((HTTPBindAddresses cfg bindOk).ok = true ↔
      (HTTPBindAddresses cfg bindOk).boundSockets ≠ []) := by
  refine ⟨fun hip => ?_, fun vbind hip hbind => ?_, fun hip hbind => ?_, ?_, ?_⟩
  · constructor <;> simp [HTTPBindAddresses, hip]
  · simp [HTTPBindAddresses, hip, hbind, splitHostPort]
  · simp [HTTPBindAddresses, hip, hbind]
  · rfl
  · simp only [HTTPBindAddresses]
    rw [Bool.not_eq_true']
    simp [List.isEmpty_iff]

/-- Witness for C8: no allow list, an ignored `-rpcbind`, every bind
succeeding. -/
theorem c8_bind_policy_witness :
    (HTTPBindAddresses (HTTPConfig.mk false (some [("10.0.0.1", none)]) 8332)
        (fun _ => true)).endpoints = [("::1", 8332), ("127.0.0.1", 8332)] ∧
    (HTTPBindAddresses (HTTPConfig.mk false (some [("10.0.0.1", none)]) 8332)
        (fun _ => true)).warnedRpcbindIgnored =
      (Option.some [(("10.0.0.1" : String), (none : Option Nat))]).isSome :=
  (c8_bind_policy (HTTPConfig.mk false (some [("10.0.0.1", none)]) 8332)
      (fun _ => true)).1 rfl

/-- C10: `ClientAllowed` rejects an invalid peer address before consulting the
subnet list (the result is `false` for every allow list), only valid addresses
can be admitted, and in the request callback an invalid peer always receives
`403` with the work queue untouched. -/
theorem c10_invalid_peer_denied (subnetMatch : CSubNet → CNetAddr → Bool)
    (a : CNetAddr) (hinv : a.IsValid = false) :
    (∀ subnets : List CSubNet, ClientAllowed subnetMatch subnets a = false) ∧
    (∀ (b : CNetAddr) (subnets : List CSubNet),
      ClientAllowed subnetMatch subnets b = true → b.IsValid = true) ∧
    (∀ (st : FrontEnd) (method : RequestMethod) (strURI : Str),
      http_request_cb subnetMatch st a method strURI =
        (.reply HTTP_FORBIDDEN "", st.workQueue)) := by
  refine ⟨fun subnets => by simp [ClientAllowed, hinv],
    fun b subnets hb => ?_, fun st method strURI => ?_⟩
  · by_contra hbv
    have hbv' : b.IsValid = false := by
      cases hb' : b.IsValid
      · rfl
      · exact absurd hb' hbv
    simp [ClientAllowed, hbv'] at hb
  · have hacl : ClientAllowed subnetMatch st.rpc_allow_subnets a = false := by
      simp [ClientAllowed, hinv]
    simp [http_request_cb, hacl]

/-- Witness for C10 at a concrete invalid address. -/
theorem c10_invalid_peer_denied_witness :
    ClientAllowed (fun _ _ => true) [3] (CNetAddr.mk false 0) = false :=
  (c10_invalid_peer_denied (fun _ _ => true) (CNetAddr.mk false 0) rfl).1 [3]

end HTTPServer

namespace Sched

/-- C9: `scheduleEvery(f, Δ)` called at `now` schedules the self-rescheduling
wrapper with deadline `now + Δ` (the first invocation is not before `Δ` after
the call); the wrapper first runs `f` to completion and only then schedules
itself at `completion + Δ` (no drift compensation); hence, when every wrapper
fires exactly at its deadline and `f` takes `tau`, successive start times are
separated by `tau + delta`. -/
theorem c9_schedule_every (s : CScheduler) (now wrapper tau delta : Nat)
    (runF : Nat → Nat) :
    (s.scheduleEvery now wrapper delta = s.schedule wrapper (now + delta)) ∧
    (∀ start, RepeatRun s wrapper runF delta start =
      (s.schedule wrapper (runF start + delta), runF start)) ∧
    (repeatStart now tau delta 0 = now + delta) ∧
    (∀ k, repeatStart now tau delta (k + 1) = repeatStart now tau delta k + tau + delta) := by
  refine ⟨rfl, fun start => rfl, rfl, fun k => ?_⟩
  simp [repeatStart, RepeatRun, CScheduler.scheduleFromNow, CScheduler.schedule,
    insertTask]

end Sched
